import Mathlib

/-!
# Transaction admission pipeline of `packages/parser/common_tx_parser.go`

A shallow embedding of `Parser.TxParser`, `Parser.processBadTransaction`,
`Parser.DeleteQueueTx` and `Parser.AllTxParser`.

The three tables (`queue_tx`, `transactions`, `transactions_status`) are finite
maps keyed by hash.  Every call of a storage helper of package `model` consumes
one entry of a fault schedule carried by the world: `some e` makes that call
fail with `e` and leave the tables as they are, `none` (or an exhausted
schedule) lets it succeed.  Logging has no effect on the tables and is left out.
-/

namespace GoGenesis

/-- Go `[]byte`, and equally the bytes of a Go `string`. -/
abbrev Bytes := List UInt8

/-- The bytes of a Go string literal or of a text given by its characters
(Go strings hold the UTF-8 encoding of their characters). -/
def goString (s : String) : Bytes := s.data.flatMap String.utf8EncodeChar

/-- A non-nil Go `error`; `Error` is the result of its method `Error()`. -/
structure GoError where
  Error : Bytes
deriving DecidableEq, Repr

/-- Go `errors.New`. -/
def errorsNew (text : Bytes) : GoError := ⟨text⟩

/-- The integer types of Go that the field `Counter` can be declared with (`int` and
`uint` behave as the 32-bit or 64-bit ones). -/
inductive GoIntType where
  | int8 | int16 | int32 | int64 | uint8 | uint16 | uint32 | uint64
deriving DecidableEq, Repr

/-- The width in bits. -/
def GoIntType.bits : GoIntType → Nat
  | .int8 => 8 | .int16 => 16 | .int32 => 32 | .int64 => 64
  | .uint8 => 8 | .uint16 => 16 | .uint32 => 32 | .uint64 => 64

/-- The least value of the type. -/
def GoIntType.minValue : GoIntType → Int
  | .int8 => -(2 ^ 7) | .int16 => -(2 ^ 15) | .int32 => -(2 ^ 31) | .int64 => -(2 ^ 63)
  | .uint8 => 0 | .uint16 => 0 | .uint32 => 0 | .uint64 => 0

/-- The greatest value of the type. -/
def GoIntType.maxValue (t : GoIntType) : Int := t.minValue + 2 ^ t.bits - 1

/-- Go integer arithmetic wraps around: the value of the type that is congruent to `x`
modulo `2 ^ bits`. -/
def GoIntType.wrap (t : GoIntType) (x : Int) : Int := (x - t.minValue) % 2 ^ t.bits + t.minValue

/-- The conversion `int8(x)` of Go: the value modulo `2^8`, read as signed. -/
def toInt8 (x : Int) : Int := (x + 128) % 256 - 128

/-- Modelled from the spec: the struct `model.Transaction` (a ledger row) is declared
outside the file; the fields are those `TxParser` assigns (`Hash`, `Data`, `Type` as `TxType`,
`KeyID`, `Counter`, `Verified`) and the flag `Used` that `DeleteTransactionIfUnused`
and `GetAllUnverifiedAndUnusedTransactions` refer to.  A field holds the integer it
denotes; the Go integer type of `Counter`, on which `counter++` wraps, is the
parameter `Env.CounterType`. -/
structure Transaction where
  Hash : Bytes
  Data : Bytes
  TxType : Int
  KeyID : Int
  Counter : Int
  Verified : Int
  Used : Int
deriving DecidableEq, Repr

/-- Modelled from the spec: the struct `model.QueueTx` (a queue entry) is declared
outside the file; `FromGate` is the integer flag that `processBadTransaction`
compares with `0`. -/
structure QueueTx where
  Hash : Bytes
  Data : Bytes
  FromGate : Int
deriving DecidableEq, Repr

/-- Modelled from the spec: the struct `model.TransactionStatus` (a StatusRecord) is
declared outside the file; it holds the error text recorded for a hash. -/
structure TransactionStatus where
  Hash : Bytes
  Error : Bytes
deriving DecidableEq, Repr

/-- The header `CheckTransaction` returns (`*tx.Header`); only `KeyID` is read. -/
structure Header where
  KeyID : Int
deriving DecidableEq, Repr

/-- The three tables. -/
structure DB where
  queue_tx : Bytes → Option QueueTx
  transactions : Bytes → Option Transaction
  transactions_status : Bytes → Option TransactionStatus

/-- The tables together with the outcomes of the storage calls to come. -/
structure World where
  db : DB
  faults : List (Option GoError)

/-- The outcome scheduled for the next storage call. -/
def World.nextFault (w : World) : Option GoError := w.faults.head?.join

/-- The world after one storage call that leaves the tables as `db`. -/
def World.advance (w : World) (db : DB) : World := ⟨db, w.faults.tail⟩

/-- No scheduled storage call fails. -/
def NoFaults (w : World) : Prop := ∀ f ∈ w.faults, f = none

instance (w : World) : Decidable (NoFaults w) := by
  unfold NoFaults; infer_instance

/-- The collaborators of the file that live in other packages and are pure:
`GetTxTypeAndUserID` and `CheckTransaction` (the decoder), `consts.IsStruct`
and `utils.ErrInfo` (which wraps a non-nil error into a non-nil error); and the
Go integer type of the field `Counter` of `model.Transaction`, which is declared in
another package too. -/
structure Env where
  GetTxTypeAndUserID : Bytes → Int × Int
  CheckTransaction : Bytes → Option Header × Option GoError
  IsStruct : Int → Bool
  ErrInfo : GoError → GoError
  CounterType : GoIntType

/-- The zero value `&model.Transaction{}`. -/
def Transaction.zero : Transaction := ⟨[], [], 0, 0, 0, 0, 0⟩

/-- The row `tx` that `TxParser` holds after its lookup: the row found, or the zero
value it started from. -/
def Transaction.filled (found : Option Transaction) : Transaction := found.getD Transaction.zero

/-- Modelled from the spec: `(*model.Transaction).Get` is defined outside the file;
it is LedgerStore `get(hash) -> Option<LedgerRow>`.  The result is the row found, if
any; in Go the receiver keeps its zero value when nothing is found. -/
def Transaction.Get (hash : Bytes) (w : World) : Except GoError (Option Transaction) × World :=
  match w.nextFault with
  | some e => (.error e, w.advance w.db)
  | none => (.ok (w.db.transactions hash), w.advance w.db)

/-- Modelled from the spec: `model.DeleteTransactionByHash` is defined outside the
file; it is LedgerStore `delete(hash)`, a no-op when the row is absent. -/
def DeleteTransactionByHash (hash : Bytes) (w : World) : Option GoError × World :=
  match w.nextFault with
  | some e => (some e, w.advance w.db)
  | none =>
    (none, w.advance { w.db with transactions := Function.update w.db.transactions hash none })

/-- Modelled from the spec: `(*model.Transaction).Create` is defined outside the
file; it is LedgerStore `insert(row)`. -/
def Transaction.Create (row : Transaction) (w : World) : Option GoError × World :=
  match w.nextFault with
  | some e => (some e, w.advance w.db)
  | none =>
    (none, w.advance
      { w.db with transactions := Function.update w.db.transactions row.Hash (some row) })

/-- Modelled from the spec: `(*model.QueueTx).GetByHash` is defined outside the file;
it is QueueStore `get(hash) -> Option<QueueEntry>`. -/
def QueueTx.GetByHash (hash : Bytes) (w : World) : Option QueueTx × Option GoError × World :=
  match w.nextFault with
  | some e => (none, some e, w.advance w.db)
  | none => (w.db.queue_tx hash, none, w.advance w.db)

/-- Modelled from the spec: `(*model.QueueTx).DeleteTx` is defined outside the file;
it is QueueStore `delete(hash)`, a no-op when the entry is absent. -/
def QueueTx.DeleteTx (hash : Bytes) (w : World) : Option GoError × World :=
  match w.nextFault with
  | some e => (some e, w.advance w.db)
  | none =>
    (none, w.advance { w.db with queue_tx := Function.update w.db.queue_tx hash none })

/-- The rows `DeleteTransactionIfUnused` removes: not used and not verified. -/
def Transaction.unusedUnverified (row : Transaction) : Bool :=
  row.Used == 0 && row.Verified == 0

/-- The table `transactions` once the row of `hash` is deleted if it is unused. -/
def reap (t : Bytes → Option Transaction) (hash : Bytes) : Bytes → Option Transaction :=
  match t hash with
  | some row => if row.unusedUnverified then Function.update t hash none else t
  | none => t

/-- Modelled from the spec: `model.DeleteTransactionIfUnused` is defined outside the
file; it is LedgerStore `deleteIfUnused(hash)`.  The spec has it delete the row for
`hash` only if that row is unused, as a guard against orphaned unverified remnants,
and never a row committed as verified; the comment above the call speaks of the
transactions with `verified=0`.  So the row is removed when it is neither used nor
verified. -/
def DeleteTransactionIfUnused (hash : Bytes) (w : World) : Option GoError × World :=
  match w.nextFault with
  | some e => (some e, w.advance w.db)
  | none => (none, w.advance { w.db with transactions := reap w.db.transactions hash })

/-- Modelled from the spec: `(*model.TransactionStatus).SetError` is defined outside
the file; it is StatusStore `setError(hash, message)`, which writes or overwrites the
StatusRecord of `hash`. -/
def TransactionStatus.SetError (errText hash : Bytes) (w : World) : Option GoError × World :=
  match w.nextFault with
  | some e => (some e, w.advance w.db)
  | none =>
    (none, w.advance
      { w.db with
        transactions_status :=
          Function.update w.db.transactions_status hash (some ⟨hash, errText⟩) })

/-- Modelled from the spec: `model.GetAllUnverifiedAndUnusedTransactions` is defined
outside the file; `fetched` stands for the rows its query returns, in fetch order. -/
def GetAllUnverifiedAndUnusedTransactions (fetched : List Transaction) (w : World) :
    Except GoError (List Transaction) × World :=
  match w.nextFault with
  | some e => (.error e, w.advance w.db)
  | none => (.ok fetched, w.advance w.db)

/-- `Parser.DeleteQueueTx`: deletes a transaction from the queue, then the ledger
row of the hash if it is unused. -/
def DeleteQueueTx (env : Env) (hash : Bytes) (w : World) : Option GoError × World :=
  match QueueTx.DeleteTx hash w with
  | (some err, w1) => (some (env.ErrInfo err), w1)
  | (none, w1) =>
    match DeleteTransactionIfUnused hash w1 with
    | (some err, w2) => (some (env.ErrInfo err), w2)
    | (none, w2) => (none, w2)

/-- The zero value `&model.QueueTx{}`. -/
def QueueTx.zero : QueueTx := ⟨[], [], 0⟩

/-- The entry `qtx` that `processBadTransaction` holds after its lookup: the entry
found, or the zero value it started from. -/
def QueueTx.filled (found : Option QueueTx) : QueueTx := found.getD QueueTx.zero

/-- `Parser.processBadTransaction`.  The result of `p.DeleteQueueTx(hash)` is
dropped by the source, and the test after it reads the `err` of the lookup. -/
def processBadTransaction (env : Env) (hash errText : Bytes) (w : World) :
    Option GoError × World :=
  let errText := if errText.length > 255 then errText.take 255 else errText
  match QueueTx.GetByHash hash w with
  | (found, err, w1) =>
    let qtx := QueueTx.filled found
    let w2 := (DeleteQueueTx env hash w1).2
    match err with
    | some e => (some (env.ErrInfo e), w2)
    | none =>
      if qtx.FromGate = 0 then
        match TransactionStatus.SetError errText hash w2 with
        | (some e, w3) => (some (env.ErrInfo e), w3)
        | (none, w3) => (none, w3)
      else (none, w2)

/-- Lines 61 to 97 of `Parser.TxParser`: the rewrite of the ledger row and the
removal from the queue, for a transaction of type `txType` with resolved owner
`keyID`. -/
def TxParser.store (env : Env) (hash binaryTx : Bytes) (txType keyID : Int) (w : World) :
    Option GoError × World :=
  match Transaction.Get hash w with
  | (.error e, w1) => (some (env.ErrInfo e), w1)
  | (.ok tx, w1) =>
    let counter : Int := env.CounterType.wrap ((Transaction.filled tx).Counter + 1)
    match DeleteTransactionByHash hash w1 with
    | (some e, w2) => (some (env.ErrInfo e), w2)
    | (none, w2) =>
      let newTx : Transaction :=
        { Hash := hash, Data := binaryTx, TxType := toInt8 txType, KeyID := keyID,
          Counter := counter, Verified := 1, Used := 0 }
      match newTx.Create w2 with
      | (some e, w3) => (some (env.ErrInfo e), w3)
      | (none, w3) =>
        match DeleteQueueTx env hash w3 with
        | (some e, w4) => (some (env.ErrInfo e), w4)
        | (none, w4) => (none, w4)

/-- `Parser.TxParser` (lines 36 to 59, then `TxParser.store`).  The argument `myTx`
is not read by the source. -/
def TxParser (env : Env) (hash binaryTx : Bytes) (_myTx : Bool) (w : World) :
    Option GoError × World :=
  match env.GetTxTypeAndUserID binaryTx, env.CheckTransaction binaryTx with
  | (txType, keyID), (header, err) =>
    match err with
    | some e => (some e, (processBadTransaction env hash e.Error w).2)
    | none =>
      let resolved : Except GoError Int :=
        if !(env.IsStruct txType) then
          match header with
          | none => .error (env.ErrInfo (errorsNew (goString "header is nil")))
          | some h => .ok h.KeyID
        else .ok keyID
      match resolved with
      | .error e => (some e, w)
      | .ok keyID =>
        if keyID = 0 then
          let errStr := goString "undefined keyID"
          (some (errorsNew errStr), (processBadTransaction env hash errStr w).2)
        else TxParser.store env hash binaryTx txType keyID w

/-- The `for` loop of `Parser.AllTxParser` over the fetched rows. -/
def AllTxParser.loop (env : Env) : List Transaction → World → Option GoError × World
  | [], w => (none, w)
  | data :: rest, w =>
    match TxParser env data.Hash data.Data false w with
    | (some err, w1) => (some (env.ErrInfo err), w1)
    | (none, w1) => AllTxParser.loop env rest w1

/-- `Parser.AllTxParser`. -/
def AllTxParser (env : Env) (fetched : List Transaction) (w : World) : Option GoError × World :=
  match GetAllUnverifiedAndUnusedTransactions fetched w with
  | (.error err, w1) => (some err, w1)
  | (.ok all, w1) => AllTxParser.loop env all w1


/-- The transaction `binaryTx` passes `CheckTransaction` and its resolved owner is `k`:
the provisional owner for a privileged type (`IsStruct`), the owner of the header
otherwise. -/
def ResolvesTo (env : Env) (binaryTx : Bytes) (k : Int) : Prop :=
  (env.CheckTransaction binaryTx).2 = none ∧
  ((env.IsStruct (env.GetTxTypeAndUserID binaryTx).1 = true ∧
      (env.GetTxTypeAndUserID binaryTx).2 = k) ∨
   (env.IsStruct (env.GetTxTypeAndUserID binaryTx).1 = false ∧
      ∃ h, (env.CheckTransaction binaryTx).1 = some h ∧ h.KeyID = k))

/-- The world after individual calls `TxParser(data.Hash, data.Data, false)` for the
rows of a list, one after the other. -/
def eachTxParser (env : Env) : List Transaction → World → World
  | [], w => w
  | data :: rest, w => eachTxParser env rest (TxParser env data.Hash data.Data false w).2

/-- Every one of these individual calls returns no error. -/
def eachSucceeds (env : Env) : List Transaction → World → Bool
  | [], _ => true
  | data :: rest, w =>
    (TxParser env data.Hash data.Data false w).1.isNone &&
      eachSucceeds env rest (TxParser env data.Hash data.Data false w).2

/-- The tables `db2` agree with `db` at every hash other than `hash`. -/
def SameOff (hash : Bytes) (db db2 : DB) : Prop :=
  ∀ h, h ≠ hash →
    db2.queue_tx h = db.queue_tx h ∧ db2.transactions h = db.transactions h ∧
    db2.transactions_status h = db.transactions_status h

/-! ## Concrete scenarios -/

/-- A toy decoder: an empty envelope fails validation with "bad signature", a
one-byte envelope `[type]` decodes without header, and `type :: key :: _` decodes
with a header of owner `key`; types below 128 are the privileged ones, whose owner
is the provisional one (also the second byte, `0` if absent).  The field `Counter`
is an `int8`. -/
def envA : Env where
  GetTxTypeAndUserID := fun b => ((b.headD 0).toNat, ((b.drop 1).headD 0).toNat)
  CheckTransaction := fun b =>
    match b with
    | [] => (none, some ⟨goString "bad signature"⟩)
    | [_] => (none, none)
    | _ :: key :: _ => (some ⟨key.toNat⟩, none)
  IsStruct := fun t => decide (t < 128)
  ErrInfo := fun e => ⟨goString "ErrInfo: " ++ e.Error⟩
  CounterType := .int8

/-- The hash used in the scenarios. -/
def hashA : Bytes := [0xA1]

/-- The second hash of the batch scenario. -/
def hashB : Bytes := [0xB2]

/-- The third hash of the batch scenario. -/
def hashC : Bytes := [0xC3]

/-- A locally submitted queue entry for `hashA`. -/
def qLocal : QueueTx := ⟨hashA, [], 0⟩

/-- A bridge-originated queue entry for `hashA`. -/
def qGate : QueueTx := ⟨hashA, [], 1⟩

/-- Empty tables. -/
def dbEmpty : DB := ⟨fun _ => none, fun _ => none, fun _ => none⟩

/-- Only a locally submitted entry for `hashA` is queued; no storage call fails. -/
def worldLocal : World :=
  ⟨{ dbEmpty with queue_tx := Function.update dbEmpty.queue_tx hashA (some qLocal) }, []⟩

/-- Only a bridge-originated entry for `hashA` is queued; no storage call fails. -/
def worldGate : World :=
  ⟨{ dbEmpty with queue_tx := Function.update dbEmpty.queue_tx hashA (some qGate) }, []⟩

/-- As `worldLocal`, but the next storage call (the queue lookup of
`processBadTransaction`) fails. -/
def worldLookupFails : World := ⟨worldLocal.db, [some ⟨goString "connection lost"⟩]⟩

/-- A message of 128 two-byte characters. -/
def msgAccents : String := ⟨List.replicate 128 'é'⟩

/-- A message of 300 two-byte characters. -/
def msgLong : String := ⟨List.replicate 300 'é'⟩

/-- A valid envelope: type 200 (not privileged), header with owner 42. -/
def txValid : Bytes := [200, 42]

/-- An envelope that decodes to type 200 without header. -/
def txNoHeader : Bytes := [200]

/-- An envelope that fails validation. -/
def txBad : Bytes := []

/-- An unverified, unused ledger row for a hash, holding the valid envelope. -/
def rowPending (hash : Bytes) : Transaction := ⟨hash, txValid, 0, 0, 0, 0, 0⟩

/-- A locally submitted entry for `hashA` is queued and the ledger holds an
unverified, unused row for `hashA`; no storage call fails. -/
def worldOrphan : World :=
  ⟨{ worldLocal.db with
      transactions := Function.update dbEmpty.transactions hashA (some (rowPending hashA)) }, []⟩

/-- As `worldLocal`, but the third storage call (the insert of `TxParser`) fails. -/
def worldInsertFails : World :=
  ⟨worldLocal.db, [none, none, some ⟨goString "disk full"⟩]⟩

/-- The rows fetched in the batch scenario. -/
def batch : List Transaction := [rowPending hashA, rowPending hashB, rowPending hashC]

/-- Three hashes are pending: each has a queue entry and an unverified, unused ledger
row.  The fetch and the five storage calls of the first admission succeed; in the
second admission the lookup and the delete succeed and the insert fails. -/
def worldBatch : World :=
  ⟨{ queue_tx := fun h => if h ∈ [hashA, hashB, hashC] then some ⟨h, txValid, 0⟩ else none,
     transactions := fun h => if h ∈ [hashA, hashB, hashC] then some (rowPending h) else none,
     transactions_status := fun _ => none },
   [none, none, none, none, none, none, none, none, some ⟨goString "disk full"⟩]⟩

/-- The toy decoder with the field `Counter` declared of type `t`. -/
def envOf (t : GoIntType) : Env := { envA with CounterType := t }

/-- A locally submitted entry for `hashA` is queued and the ledger holds for `hashA`
a verified row, left by earlier admissions, whose counter is `c`; no storage call
fails. -/
def worldCounter (c : Int) : World :=
  ⟨{ worldLocal.db with
      transactions := Function.update dbEmpty.transactions hashA
        (some ⟨hashA, txValid, -56, 42, c, 1, 0⟩) }, []⟩

/-! ## Storage calls in a world without faults -/

theorem nextFault_of_noFaults {w : World} (h : NoFaults w) : w.nextFault = none := by
  obtain ⟨db, faults⟩ := w
  cases faults with
  | nil => rfl
  | cons f fs =>
    have hf : f = none := h f (List.mem_cons_self f fs)
    subst hf
    rfl

theorem noFaults_advance {w : World} (h : NoFaults w) (db : DB) : NoFaults (w.advance db) := by
  intro f hf
  exact h f (List.mem_of_mem_tail hf)

@[simp] theorem advance_db (w : World) (db : DB) : (w.advance db).db = db := rfl

theorem truncate_eq_take (errText : Bytes) :
    (if errText.length > 255 then errText.take 255 else errText) = errText.take 255 := by
  split
  · rfl
  · rw [List.take_of_length_le (by omega)]

theorem DeleteQueueTx_of_noFaults (env : Env) (hash : Bytes) {w : World} (h : NoFaults w) :
    (DeleteQueueTx env hash w).1 = none ∧ NoFaults (DeleteQueueTx env hash w).2 ∧
    (DeleteQueueTx env hash w).2.db.queue_tx = Function.update w.db.queue_tx hash none ∧
    (DeleteQueueTx env hash w).2.db.transactions = reap w.db.transactions hash ∧
    (DeleteQueueTx env hash w).2.db.transactions_status = w.db.transactions_status := by
  have h1 := nextFault_of_noFaults h
  have h2 : ∀ db, (w.advance db).nextFault = none :=
    fun db => nextFault_of_noFaults (noFaults_advance h db)
  have h3 : ∀ db db2, NoFaults ((w.advance db).advance db2) :=
    fun db db2 => noFaults_advance (noFaults_advance h db) db2
  unfold DeleteQueueTx QueueTx.DeleteTx DeleteTransactionIfUnused
  simp [h1, h2, h3]

theorem processBadTransaction_of_noFaults (env : Env) (hash errText : Bytes) {w : World}
    (h : NoFaults w) :
    (processBadTransaction env hash errText w).1 = none ∧
    NoFaults (processBadTransaction env hash errText w).2 ∧
    (processBadTransaction env hash errText w).2.db.queue_tx
      = Function.update w.db.queue_tx hash none ∧
    (processBadTransaction env hash errText w).2.db.transactions
      = reap w.db.transactions hash ∧
    (processBadTransaction env hash errText w).2.db.transactions_status
      = (if (QueueTx.filled (w.db.queue_tx hash)).FromGate = 0 then
          Function.update w.db.transactions_status hash (some ⟨hash, errText.take 255⟩)
        else w.db.transactions_status) := by
  have h1 := nextFault_of_noFaults h
  obtain ⟨-, d2, d3, d4, d5⟩ := DeleteQueueTx_of_noFaults env hash (noFaults_advance h w.db)
  have h2 := nextFault_of_noFaults d2
  simp only [advance_db] at d3 d4 d5
  unfold processBadTransaction QueueTx.GetByHash
  simp only [h1, truncate_eq_take]
  by_cases hg : (QueueTx.filled (w.db.queue_tx hash)).FromGate = 0
  · simp only [hg, if_true]
    unfold TransactionStatus.SetError
    simp only [h2, advance_db]
    exact ⟨trivial, noFaults_advance d2 _, d3, d4, by rw [d5]⟩
  · simp only [hg, if_false]
    exact ⟨trivial, d2, d3, d4, d5⟩

theorem reap_reap (t : Bytes → Option Transaction) (hash : Bytes) :
    reap (reap t hash) hash = reap t hash := by
  unfold reap
  cases ht : t hash with
  | none => simp [ht]
  | some row =>
    by_cases hu : row.unusedUnverified = true
    · simp [hu]
    · simp [hu, ht]

/-! ## Wrap-around of the counter -/

theorem wrap_of_inRange (t : GoIntType) (x : Int) (hlo : t.minValue ≤ x) (hhi : x ≤ t.maxValue) :
    t.wrap x = x := by
  cases t <;>
    simp only [GoIntType.wrap, GoIntType.minValue, GoIntType.maxValue, GoIntType.bits] at * <;>
    omega

theorem wrap_succ_maxValue (t : GoIntType) : t.wrap (t.maxValue + 1) = t.minValue := by
  cases t <;> decide

theorem wrap_inRange (t : GoIntType) (x : Int) :
    t.minValue ≤ t.wrap x ∧ t.wrap x ≤ t.maxValue := by
  cases t <;>
    simp only [GoIntType.wrap, GoIntType.minValue, GoIntType.maxValue, GoIntType.bits] <;>
    omega

theorem wrap_one (t : GoIntType) : t.wrap 1 = 1 := by
  cases t <;> decide

/-! ## The Rejection Handler -/

/-- C6: when the hash has a queue entry and no storage call fails,
`processBadTransaction` returns no error, the queue holds no entry for the hash
afterwards, and a StatusRecord is written exactly when the entry's `FromGate` is
zero: then the table of statuses gets the record with the message cut to 255 units
(the message itself when it has at most 255), otherwise the table is unchanged. -/
theorem processBadTransaction_origin_visibility (env : Env) (hash errText : Bytes) (w : World)
    (q : QueueTx) (hq : w.db.queue_tx hash = some q) (hnf : NoFaults w) :
    (processBadTransaction env hash errText w).1 = none ∧
    (processBadTransaction env hash errText w).2.db.queue_tx hash = none ∧
    (q.FromGate = 0 →
      (processBadTransaction env hash errText w).2.db.transactions_status
        = Function.update w.db.transactions_status hash (some ⟨hash, errText.take 255⟩)) ∧
    (q.FromGate = 0 → errText.length ≤ 255 →
      (processBadTransaction env hash errText w).2.db.transactions_status hash
        = some ⟨hash, errText⟩) ∧
    (q.FromGate ≠ 0 →
      (processBadTransaction env hash errText w).2.db.transactions_status
        = w.db.transactions_status) := by
  obtain ⟨p1, -, p3, -, p5⟩ := processBadTransaction_of_noFaults env hash errText hnf
  have hf : (QueueTx.filled (w.db.queue_tx hash)).FromGate = q.FromGate := by
    rw [hq]; rfl
  rw [hf] at p5
  refine ⟨p1, by rw [p3]; simp, ?_, ?_, ?_⟩
  · intro h0
    rw [p5, if_pos h0]
  · intro h0 hlen
    rw [p5, if_pos h0, List.take_of_length_le hlen]
    simp
  · intro h0
    rw [p5, if_neg h0]

/-- C6 at a locally submitted entry rejected with "bad signature". -/
theorem processBadTransaction_origin_visibility_witness :
    (processBadTransaction envA hashA (goString "bad signature") worldLocal).2.db.transactions_status
      hashA = some ⟨hashA, goString "bad signature"⟩ :=
  (processBadTransaction_origin_visibility envA hashA (goString "bad signature") worldLocal
    qLocal (by decide) (by decide)).2.2.2.1 (by decide) (by decide)

/-! ## Characters and bytes of a message -/

theorem utf8EncodeChar_of_le {c : Char} (h : c.val ≤ 0x7f) :
    String.utf8EncodeChar c = [c.val.toUInt8] := by
  simp [String.utf8EncodeChar, h]

theorem flatMap_utf8_of_singleByte (cs : List Char) (h : ∀ c ∈ cs, c.val ≤ 0x7f) :
    cs.flatMap String.utf8EncodeChar = cs.map (fun c => c.val.toUInt8) := by
  induction cs with
  | nil => rfl
  | cons c cs ih =>
    have hc := utf8EncodeChar_of_le (h c (List.mem_cons_self c cs))
    have ht := ih (fun d hd => h d (List.mem_cons_of_mem c hd))
    simp only [List.flatMap_cons, List.map_cons, hc, ht, List.singleton_append]

theorem goString_take_of_singleByte (s : String) (h : ∀ c ∈ s.data, c.val ≤ 0x7f) (n : Nat) :
    (goString s).take n = goString ⟨s.data.take n⟩ := by
  unfold goString
  rw [flatMap_utf8_of_singleByte _ h,
    flatMap_utf8_of_singleByte _ (fun c hc => h c (List.mem_of_mem_take hc)), List.map_take]

theorem length_flatMap_replicate (n : Nat) (c : Char) :
    ((List.replicate n c).flatMap String.utf8EncodeChar).length
      = n * (String.utf8EncodeChar c).length := by
  induction n with
  | zero => simp
  | succ k ih =>
    simp only [List.replicate_succ, List.flatMap_cons, List.length_append, ih]
    ring

/-- C7, amended: the cut counts bytes, the units of a Go string.  For a locally submitted
entry and no failing storage call, the error text recorded is the first 255 bytes of
the message: it has exactly 255 bytes when the message has more, and is the message
itself when the message has at most 255 bytes.  For a message of single-byte
characters these are its first 255 characters. -/
theorem processBadTransaction_truncates_bytes (env : Env) (hash errText : Bytes) (w : World)
    (q : QueueTx) (hq : w.db.queue_tx hash = some q) (hlocal : q.FromGate = 0)
    (hnf : NoFaults w) :
    (processBadTransaction env hash errText w).2.db.transactions_status hash
      = some ⟨hash, errText.take 255⟩ ∧
    (errText.length > 255 → (errText.take 255).length = 255) ∧
    (errText.length ≤ 255 → errText.take 255 = errText) ∧
    (∀ s : String, errText = goString s → (∀ c ∈ s.data, c.val ≤ 0x7f) →
      errText.take 255 = goString ⟨s.data.take 255⟩ ∧
      (s.length > 255 → (s.data.take 255).length = 255) ∧
      (s.length ≤ 255 → s.data.take 255 = s.data)) := by
  obtain ⟨-, -, -, -, p5⟩ := processBadTransaction_of_noFaults env hash errText hnf
  have hf : (QueueTx.filled (w.db.queue_tx hash)).FromGate = 0 := by
    rw [hq]; exact hlocal
  rw [if_pos hf] at p5
  refine ⟨by rw [p5]; simp, ?_, ?_, ?_⟩
  · intro h
    rw [List.length_take]; omega
  · intro h
    exact List.take_of_length_le h
  · intro s hs hascii
    refine ⟨by rw [hs]; exact goString_take_of_singleByte s hascii 255, ?_, ?_⟩
    · intro h
      rw [List.length_take]
      have : s.length = s.data.length := rfl
      omega
    · intro h
      exact List.take_of_length_le h

/-- C7, amended, at the 13 single-byte characters of "bad signature". -/
theorem processBadTransaction_truncates_bytes_witness :
    (processBadTransaction envA hashA (goString "bad signature") worldLocal).2.db.transactions_status
      hashA = some ⟨hashA, (goString "bad signature").take 255⟩ :=
  (processBadTransaction_truncates_bytes envA hashA (goString "bad signature") worldLocal
    qLocal (by decide) (by decide) (by decide)).1

/-- C7 fails when characters are not bytes, for a locally submitted entry and no failing
storage call: a message of 128 characters `é` (at most 255 characters, but 256
bytes) is not recorded unchanged, and for a message of 300 characters `é` the text
recorded is not the first 255 characters of the message (it is 255 bytes long, which
is 127 characters and half of another). -/
theorem truncation_counts_bytes_not_characters :
    worldLocal.db.queue_tx hashA = some qLocal ∧ qLocal.FromGate = 0 ∧ NoFaults worldLocal ∧
    (msgAccents.length ≤ 255 ∧
      (processBadTransaction envA hashA (goString msgAccents) worldLocal).2.db.transactions_status
        hashA ≠ some ⟨hashA, goString msgAccents⟩) ∧
    (msgLong.length > 255 ∧
      (processBadTransaction envA hashA (goString msgLong) worldLocal).2.db.transactions_status
        hashA ≠ some ⟨hashA, goString ⟨msgLong.data.take 255⟩⟩) := by
  have hnf : NoFaults worldLocal := by decide
  have hrec : ∀ m : Bytes,
      (processBadTransaction envA hashA m worldLocal).2.db.transactions_status hashA
        = some ⟨hashA, m.take 255⟩ := by
    intro m
    rw [(processBadTransaction_of_noFaults envA hashA m hnf).2.2.2.2]
    rw [if_pos (by decide)]
    simp
  have hlen : (goString msgAccents).length = 256 := by
    unfold goString msgAccents
    rw [length_flatMap_replicate]
    decide
  have hlen2 : (goString ⟨msgLong.data.take 255⟩).length = 510 := by
    unfold goString msgLong
    rw [List.take_replicate, length_flatMap_replicate]
    decide
  refine ⟨by decide, by decide, hnf, ⟨?_, ?_⟩, ⟨?_, ?_⟩⟩
  · show (List.replicate 128 'é').length ≤ 255
    rw [List.length_replicate]
    omega
  · rw [hrec]
    intro h
    have h2 : (goString msgAccents).take 255 = goString msgAccents := by
      simpa using h
    have h3 := congrArg List.length h2
    rw [List.length_take, hlen] at h3
    omega
  · show (List.replicate 300 'é').length > 255
    rw [List.length_replicate]
    omega
  · rw [hrec]
    intro h
    have h2 : (goString msgLong).take 255 = goString ⟨msgLong.data.take 255⟩ := by
      simpa using h
    have h3 := congrArg List.length h2
    rw [List.length_take, hlen2] at h3
    omega

/-- C8, amended: when no storage call fails, a second `processBadTransaction` for the same
hash and message returns no error and leaves the queue and the ledger exactly as the
first call left them.  The table of statuses after the second call holds the cut
message for the hash (one record per hash); it is exactly as the first call left it
when the entry was locally submitted or absent before the first call.  (For a
bridge-originated entry the second call finds no entry, reads the zero value of
`FromGate` and writes the record.) -/
theorem processBadTransaction_twice (env : Env) (hash errText : Bytes) (w : World)
    (hnf : NoFaults w) :
    (processBadTransaction env hash errText (processBadTransaction env hash errText w).2).1
      = none ∧
    (processBadTransaction env hash errText (processBadTransaction env hash errText w).2).2.db.queue_tx
      = (processBadTransaction env hash errText w).2.db.queue_tx ∧
    (processBadTransaction env hash errText (processBadTransaction env hash errText w).2).2.db.transactions
      = (processBadTransaction env hash errText w).2.db.transactions ∧
    (processBadTransaction env hash errText
        (processBadTransaction env hash errText w).2).2.db.transactions_status
      = Function.update (processBadTransaction env hash errText w).2.db.transactions_status hash
          (some ⟨hash, errText.take 255⟩) ∧
    ((QueueTx.filled (w.db.queue_tx hash)).FromGate = 0 →
      (processBadTransaction env hash errText
          (processBadTransaction env hash errText w).2).2.db.transactions_status
        = (processBadTransaction env hash errText w).2.db.transactions_status) := by
  obtain ⟨-, p2, p3, p4, p5⟩ := processBadTransaction_of_noFaults env hash errText hnf
  obtain ⟨r1, -, r3, r4, r5⟩ := processBadTransaction_of_noFaults env hash errText p2
  have hgone : (processBadTransaction env hash errText w).2.db.queue_tx hash = none := by
    rw [p3]; simp
  have hz : (QueueTx.filled (none : Option QueueTx)).FromGate = 0 := rfl
  rw [hgone, if_pos hz] at r5
  refine ⟨r1, ?_, ?_, r5, ?_⟩
  · rw [r3, p3]; simp
  · rw [r4, p4]
    exact reap_reap w.db.transactions hash
  · intro h0
    rw [r5, p5, if_pos h0]
    simp

/-- C8, amended, at a locally submitted entry. -/
theorem processBadTransaction_twice_witness :
    (processBadTransaction envA hashA (goString "bad signature")
        (processBadTransaction envA hashA (goString "bad signature") worldLocal).2).2.db.transactions_status
      = (processBadTransaction envA hashA (goString "bad signature") worldLocal).2.db.transactions_status :=
  (processBadTransaction_twice envA hashA (goString "bad signature") worldLocal
    (by decide)).2.2.2.2 (by decide)

/-- C8 fails for a bridge-originated entry: with no failing storage call, the first
`processBadTransaction` writes no StatusRecord for the hash and the second one
creates one, so the table of statuses is not as the first call left it. -/
theorem second_rejection_of_gate_entry_writes_status :
    worldGate.db.queue_tx hashA = some qGate ∧ qGate.FromGate ≠ 0 ∧ NoFaults worldGate ∧
    (processBadTransaction envA hashA (goString "bad signature") worldGate).2.db.transactions_status
      hashA = none ∧
    (processBadTransaction envA hashA (goString "bad signature")
        (processBadTransaction envA hashA (goString "bad signature") worldGate).2).2.db.transactions_status
      hashA = some ⟨hashA, goString "bad signature"⟩ := by
  decide

/-- C9 at a failing lookup: when the queue lookup fails and every later storage call
succeeds, `processBadTransaction` removes the queue entry and then returns the
wrapped error of the lookup, without writing the StatusRecord of the locally
submitted entry. -/
theorem processBadTransaction_lookup_failure_returns_error :
    worldLookupFails.faults = [some ⟨goString "connection lost"⟩] ∧
    worldLookupFails.db.queue_tx hashA = some qLocal ∧
    (processBadTransaction envA hashA (goString "bad signature") worldLookupFails).1
      = some (envA.ErrInfo ⟨goString "connection lost"⟩) ∧
    (processBadTransaction envA hashA (goString "bad signature") worldLookupFails).2.db.queue_tx
      hashA = none ∧
    (processBadTransaction envA hashA (goString "bad signature")
      worldLookupFails).2.db.transactions_status hashA = none := by
  decide

/-! ## The Admission Engine -/

theorem TxParser_of_resolvesTo (env : Env) (hash binaryTx : Bytes) (myTx : Bool) (w : World)
    (k : Int) (hres : ResolvesTo env binaryTx k) :
    TxParser env hash binaryTx myTx w =
      if k = 0 then
        (some (errorsNew (goString "undefined keyID")),
          (processBadTransaction env hash (goString "undefined keyID") w).2)
      else TxParser.store env hash binaryTx (env.GetTxTypeAndUserID binaryTx).1 k w := by
  obtain ⟨hck, hcase⟩ := hres
  unfold TxParser
  rcases hcase with ⟨hs, hk⟩ | ⟨hs, h, hh, hk⟩
  · simp only [hck, hs, hk]
    simp
  · simp only [hck, hs, hh, hk]
    simp

theorem store_of_noFaults (env : Env) (hash binaryTx : Bytes) (txType keyID : Int) {w : World}
    (h : NoFaults w) :
    (TxParser.store env hash binaryTx txType keyID w).1 = none ∧
    NoFaults (TxParser.store env hash binaryTx txType keyID w).2 := by
  have a1 := nextFault_of_noFaults h
  have n1 := noFaults_advance h w.db
  have a2 := nextFault_of_noFaults n1
  have n2 := fun db => noFaults_advance n1 db
  have a3 := fun db => nextFault_of_noFaults (n2 db)
  have n3 := fun db db2 => noFaults_advance (n2 db) db2
  unfold TxParser.store Transaction.Get DeleteTransactionByHash Transaction.Create
  simp only [a1, a2, a3]
  obtain ⟨d1, d2, -⟩ := DeleteQueueTx_of_noFaults env hash (n3
    { w.db with transactions := Function.update w.db.transactions hash none }
    { transactions := Function.update (Function.update w.db.transactions hash none) hash
        (some { Hash := hash, Data := binaryTx, TxType := toInt8 txType, KeyID := keyID,
                Counter := (env.CounterType.wrap
                  ((Transaction.filled (w.db.transactions hash)).Counter + 1)),
                Verified := 1, Used := 0 }),
      queue_tx := w.db.queue_tx, transactions_status := w.db.transactions_status })
  simp only [advance_db] at d1 d2 ⊢
  split
  · next e w4 heq => rw [heq] at d1; simp at d1
  · next w4 heq => rw [heq] at d2; exact ⟨rfl, d2⟩

theorem TxParser_success_is_store (env : Env) (hash binaryTx : Bytes) (myTx : Bool) (w : World)
    (hok : (TxParser env hash binaryTx myTx w).1 = none) :
    ∃ t k, TxParser env hash binaryTx myTx w = TxParser.store env hash binaryTx t k w := by
  unfold TxParser at hok ⊢
  cases herr : (env.CheckTransaction binaryTx).2 with
  | some e => simp [herr] at hok
  | none =>
    cases hs : env.IsStruct (env.GetTxTypeAndUserID binaryTx).1 with
    | true =>
      by_cases hk : (env.GetTxTypeAndUserID binaryTx).2 = 0
      · simp [herr, hs, hk] at hok
      · exact ⟨(env.GetTxTypeAndUserID binaryTx).1, (env.GetTxTypeAndUserID binaryTx).2,
          by simp [herr, hs, hk]⟩
    | false =>
      cases hh : (env.CheckTransaction binaryTx).1 with
      | none => simp [herr, hs, hh] at hok
      | some hdr =>
        by_cases hk : hdr.KeyID = 0
        · simp [herr, hs, hh, hk] at hok
        · exact ⟨(env.GetTxTypeAndUserID binaryTx).1, hdr.KeyID, by simp [herr, hs, hh, hk]⟩

theorem reap_update_verified (t : Bytes → Option Transaction) (hash : Bytes) (row : Transaction)
    (hv : row.Verified = 1) :
    reap (Function.update t hash (some row)) hash = Function.update t hash (some row) := by
  unfold reap
  simp [Transaction.unusedUnverified, hv]

theorem store_success (env : Env) (hash binaryTx : Bytes) (txType keyID : Int) (w : World)
    (h : (TxParser.store env hash binaryTx txType keyID w).1 = none) :
    (TxParser.store env hash binaryTx txType keyID w).2.db.transactions
      = Function.update w.db.transactions hash
          (some { Hash := hash, Data := binaryTx, TxType := toInt8 txType, KeyID := keyID,
                  Counter := (env.CounterType.wrap
                  ((Transaction.filled (w.db.transactions hash)).Counter + 1)),
                  Verified := 1, Used := 0 }) ∧
    (TxParser.store env hash binaryTx txType keyID w).2.db.queue_tx
      = Function.update w.db.queue_tx hash none ∧
    (TxParser.store env hash binaryTx txType keyID w).2.db.transactions_status
      = w.db.transactions_status := by
  obtain ⟨db, faults⟩ := w
  rcases faults with _ | ⟨_ | e1, _ | ⟨_ | e2, _ | ⟨_ | e3, _ | ⟨_ | e4, _ | ⟨_ | e5, rest⟩⟩⟩⟩⟩ <;>
    simp [TxParser.store, Transaction.Get, DeleteTransactionByHash, Transaction.Create,
      DeleteQueueTx, QueueTx.DeleteTx, DeleteTransactionIfUnused, World.nextFault,
      World.advance, reap_update_verified] at h ⊢

/-- C1: for a hash with no ledger row (with a queue entry or not), and a transaction that decodes
without error to a non-privileged type with a header of owner `k ≠ 0`, if no storage
call fails then `TxParser` returns no error; afterwards the ledger holds for the hash
the row with owner `k`, `Verified = 1`, `Counter = 1` and the raw bytes as data (the
delete-if-unused step at the end has not removed it), and the queue holds no entry
for the hash. -/
theorem TxParser_success_end_state (env : Env) (hash binaryTx : Bytes) (myTx : Bool) (w : World)
    (hdr : Header) (hl : w.db.transactions hash = none)
    (hcheck : env.CheckTransaction binaryTx = (some hdr, none))
    (htype : env.IsStruct (env.GetTxTypeAndUserID binaryTx).1 = false)
    (hk : hdr.KeyID ≠ 0) (hnf : NoFaults w) :
    (TxParser env hash binaryTx myTx w).1 = none ∧
    (TxParser env hash binaryTx myTx w).2.db.transactions hash
      = some { Hash := hash, Data := binaryTx,
               TxType := toInt8 (env.GetTxTypeAndUserID binaryTx).1,
               KeyID := hdr.KeyID, Counter := 1, Verified := 1, Used := 0 } ∧
    (TxParser env hash binaryTx myTx w).2.db.queue_tx hash = none := by
  have hres : ResolvesTo env binaryTx hdr.KeyID :=
    ⟨by rw [hcheck], Or.inr ⟨htype, hdr, by rw [hcheck], rfl⟩⟩
  rw [TxParser_of_resolvesTo env hash binaryTx myTx w hdr.KeyID hres, if_neg hk]
  obtain ⟨s1, -⟩ := store_of_noFaults env hash binaryTx (env.GetTxTypeAndUserID binaryTx).1
    hdr.KeyID hnf
  obtain ⟨t1, t2, -⟩ := store_success env hash binaryTx (env.GetTxTypeAndUserID binaryTx).1
    hdr.KeyID w s1
  refine ⟨s1, ?_, ?_⟩
  · rw [t1, hl]
    simp [Transaction.filled, Transaction.zero, wrap_one]
  · rw [t2]
    simp

/-- C1 at the valid envelope of owner 42 queued for `hashA`. -/
theorem TxParser_success_end_state_witness :
    (TxParser envA hashA txValid true worldLocal).1 = none ∧
    (TxParser envA hashA txValid true worldLocal).2.db.transactions hashA
      = some { Hash := hashA, Data := txValid, TxType := -56, KeyID := 42, Counter := 1,
               Verified := 1, Used := 0 } ∧
    (TxParser envA hashA txValid true worldLocal).2.db.queue_tx hashA = none :=
  TxParser_success_end_state envA hashA txValid true worldLocal ⟨42⟩
    (by decide) (by decide) (by decide) (by decide) (by decide)

/-- C2, amended: `counter++` is arithmetic of the Go integer type of the field
`Counter` and wraps around.  If `TxParser` returns no error, the ledger afterwards
holds a verified row for the hash whose counter is the wrapped successor of the
counter `c` held before (`0` when there was no row): exactly `c + 1` when `c` is a
value of the type below its maximum, and the minimum of the type when `c` is the
maximum.  Hence a second successful `TxParser` for the same hash leaves a row whose
counter is one more than after the first when that counter is below the maximum,
and the minimum of the type when it is the maximum. -/
theorem TxParser_counter_succ (env : Env) (hash binaryTx : Bytes) (myTx : Bool) (w : World)
    (hok : (TxParser env hash binaryTx myTx w).1 = none) :
    (∃ row, (TxParser env hash binaryTx myTx w).2.db.transactions hash = some row ∧
      row.Verified = 1 ∧
      row.Counter
        = env.CounterType.wrap ((Transaction.filled (w.db.transactions hash)).Counter + 1) ∧
      (env.CounterType.minValue ≤ (Transaction.filled (w.db.transactions hash)).Counter →
        (Transaction.filled (w.db.transactions hash)).Counter < env.CounterType.maxValue →
        row.Counter = (Transaction.filled (w.db.transactions hash)).Counter + 1) ∧
      ((Transaction.filled (w.db.transactions hash)).Counter = env.CounterType.maxValue →
        row.Counter = env.CounterType.minValue)) ∧
    (∀ (binaryTx2 : Bytes) (myTx2 : Bool),
      (TxParser env hash binaryTx2 myTx2 (TxParser env hash binaryTx myTx w).2).1 = none →
      ∃ row row2, (TxParser env hash binaryTx myTx w).2.db.transactions hash = some row ∧
        (TxParser env hash binaryTx2 myTx2
          (TxParser env hash binaryTx myTx w).2).2.db.transactions hash = some row2 ∧
        (row.Counter < env.CounterType.maxValue → row2.Counter = row.Counter + 1) ∧
        (row.Counter = env.CounterType.maxValue → row2.Counter = env.CounterType.minValue)) := by
  have key : ∀ (b : Bytes) (m : Bool) (v : World), (TxParser env hash b m v).1 = none →
      ∃ row, (TxParser env hash b m v).2.db.transactions hash = some row ∧
        row.Verified = 1 ∧
        row.Counter
          = env.CounterType.wrap ((Transaction.filled (v.db.transactions hash)).Counter + 1) := by
    intro b m v hv
    obtain ⟨t, k, hst⟩ := TxParser_success_is_store env hash b m v hv
    rw [hst] at hv ⊢
    obtain ⟨t1, -, -⟩ := store_success env hash b t k v hv
    exact ⟨_, by rw [t1, Function.update_same], rfl, rfl⟩
  obtain ⟨row, hrow, hver, hc⟩ := key binaryTx myTx w hok
  refine ⟨⟨row, hrow, hver, hc, ?_, ?_⟩, ?_⟩
  · intro hlo hhi
    rw [hc]
    exact wrap_of_inRange _ _ (by omega) (by omega)
  · intro hmax
    rw [hc, hmax]
    exact wrap_succ_maxValue _
  · intro b2 m2 hok2
    obtain ⟨row2, hrow2, -, hc2⟩ := key b2 m2 _ hok2
    rw [hrow] at hc2
    have hc3 : row2.Counter = env.CounterType.wrap (row.Counter + 1) := hc2
    have hrange := wrap_inRange env.CounterType
      ((Transaction.filled (w.db.transactions hash)).Counter + 1)
    rw [← hc] at hrange
    refine ⟨row, row2, hrow, hrow2, ?_, ?_⟩
    · intro hhi
      rw [hc3]
      exact wrap_of_inRange _ _ (by omega) (by omega)
    · intro hmax
      rw [hc3, hmax]
      exact wrap_succ_maxValue _

/-- C2, amended, at two successive admissions of the valid envelope for `hashA`: both
succeed, and the second leaves a row whose counter is one more than after the first
(which is 1, below the maximum). -/
theorem TxParser_counter_succ_witness :
    (TxParser envA hashA txValid false worldLocal).1 = none ∧
    (TxParser envA hashA txValid false (TxParser envA hashA txValid false worldLocal).2).1 = none ∧
    ∃ row row2, (TxParser envA hashA txValid false worldLocal).2.db.transactions hashA = some row ∧
      (TxParser envA hashA txValid false
        (TxParser envA hashA txValid false worldLocal).2).2.db.transactions hashA = some row2 ∧
      (row.Counter < envA.CounterType.maxValue → row2.Counter = row.Counter + 1) ∧
      (row.Counter = envA.CounterType.maxValue → row2.Counter = envA.CounterType.minValue) :=
  ⟨by decide, by decide,
    (TxParser_counter_succ envA hashA txValid false worldLocal (by decide)).2 txValid false
      (by decide)⟩

/-- C2 fails at the maximum of the counter type.  With `Counter` an `int8` and a ledger
row of counter 127 for the hash, a successful `TxParser` leaves a row of counter
-128, not 128.  The same happens whatever Go integer type the field has: from the
maximum of the type the successful call leaves the minimum of the type, which is
not one more. -/
theorem counter_wraps_at_maximum :
    (TxParser envA hashA txValid false (worldCounter 127)).1 = none ∧
    (Transaction.filled ((worldCounter 127).db.transactions hashA)).Counter = 127 ∧
    ((TxParser envA hashA txValid false (worldCounter 127)).2.db.transactions hashA).map
      (fun row => row.Counter) = some (-128) ∧
    (∀ t : GoIntType,
      (TxParser (envOf t) hashA txValid false (worldCounter t.maxValue)).1 = none ∧
      ((TxParser (envOf t) hashA txValid false (worldCounter t.maxValue)).2.db.transactions
        hashA).map (fun row => row.Counter) = some t.minValue ∧
      t.minValue ≠ t.maxValue + 1) := by
  refine ⟨by decide, by decide, by decide, ?_⟩
  intro t
  cases t <;> decide

/-- C3: for a transaction that passes validation with a non-zero resolved owner, if the
ledger lookup, the ledger delete or the ledger insert fails with `e` (the calls
before it succeeding), then `TxParser` returns the error wrapping `e`, and both the
queue and the table of statuses are exactly as before the call: the queue entry is
intact and no StatusRecord is written. -/
theorem TxParser_persistence_failure (env : Env) (hash binaryTx : Bytes) (myTx : Bool)
    (w : World) (k : Int) (e : GoError)
    (hres : ResolvesTo env binaryTx k) (hk : k ≠ 0)
    (hfail : (∃ rest, w.faults = some e :: rest) ∨
      (∃ rest, w.faults = none :: some e :: rest) ∨
      (∃ rest, w.faults = none :: none :: some e :: rest)) :
    (TxParser env hash binaryTx myTx w).1 = some (env.ErrInfo e) ∧
    (TxParser env hash binaryTx myTx w).2.db.queue_tx = w.db.queue_tx ∧
    (TxParser env hash binaryTx myTx w).2.db.transactions_status = w.db.transactions_status := by
  rw [TxParser_of_resolvesTo env hash binaryTx myTx w k hres, if_neg hk]
  obtain ⟨db, faults⟩ := w
  rcases hfail with ⟨rest, hf⟩ | ⟨rest, hf⟩ | ⟨rest, hf⟩ <;>
    · simp only at hf
      subst hf
      simp [TxParser.store, Transaction.Get, DeleteTransactionByHash, Transaction.Create,
        World.nextFault, World.advance]

/-- C3 at a failing insert for the valid envelope queued for `hashA`. -/
theorem TxParser_persistence_failure_witness :
    (TxParser envA hashA txValid false worldInsertFails).1
      = some (envA.ErrInfo ⟨goString "disk full"⟩) ∧
    (TxParser envA hashA txValid false worldInsertFails).2.db.queue_tx
      = worldInsertFails.db.queue_tx ∧
    (TxParser envA hashA txValid false worldInsertFails).2.db.transactions_status
      = worldInsertFails.db.transactions_status :=
  TxParser_persistence_failure envA hashA txValid false worldInsertFails 42
    ⟨goString "disk full"⟩ ⟨rfl, Or.inr ⟨rfl, ⟨42⟩, rfl, rfl⟩⟩ (by decide)
    (Or.inr (Or.inr ⟨[], rfl⟩))

/-- C4, amended: for a transaction that decodes without error to a non-privileged type
and carries no header, `TxParser` returns the wrapped error "header is nil" and makes
no storage call: the world is as before, so the queue entry stays, no StatusRecord is
written and no ledger row is inserted or deleted. -/
theorem TxParser_missing_header (env : Env) (hash binaryTx : Bytes) (myTx : Bool) (w : World)
    (hcheck : env.CheckTransaction binaryTx = (none, none))
    (htype : env.IsStruct (env.GetTxTypeAndUserID binaryTx).1 = false) :
    TxParser env hash binaryTx myTx w
      = (some (env.ErrInfo (errorsNew (goString "header is nil"))), w) := by
  unfold TxParser
  simp [hcheck, htype]

/-- C4, amended, at the envelope without header queued for `hashA`. -/
theorem TxParser_missing_header_witness :
    TxParser envA hashA txNoHeader false worldLocal
      = (some (envA.ErrInfo (errorsNew (goString "header is nil"))), worldLocal) :=
  TxParser_missing_header envA hashA txNoHeader false worldLocal rfl rfl

/-- C4 fails: the envelope without header of a non-privileged type, queued for `hashA`
as a locally submitted entry, makes `TxParser` return an error, yet the queue still
holds the entry afterwards and no StatusRecord is written. -/
theorem missing_header_is_not_rejected :
    envA.CheckTransaction txNoHeader = (none, none) ∧
    envA.IsStruct (envA.GetTxTypeAndUserID txNoHeader).1 = false ∧
    worldLocal.db.queue_tx hashA = some qLocal ∧ qLocal.FromGate = 0 ∧
    (TxParser envA hashA txNoHeader false worldLocal).1.isSome = true ∧
    (TxParser envA hashA txNoHeader false worldLocal).2.db.queue_tx hashA = some qLocal ∧
    (TxParser envA hashA txNoHeader false worldLocal).2.db.transactions_status hashA = none := by
  decide

theorem processBadTransaction_transactions (env : Env) (hash errText : Bytes) (w : World) :
    (processBadTransaction env hash errText w).2.db.transactions = w.db.transactions ∨
    (processBadTransaction env hash errText w).2.db.transactions
      = reap w.db.transactions hash := by
  obtain ⟨db, faults⟩ := w
  rcases faults with _ | ⟨_ | e1, _ | ⟨_ | e2, _ | ⟨_ | e3, _ | ⟨_ | e4, rest⟩⟩⟩⟩ <;>
    by_cases hg : (QueueTx.filled (db.queue_tx hash)).FromGate = 0 <;>
    simp [processBadTransaction, QueueTx.GetByHash, DeleteQueueTx, QueueTx.DeleteTx,
      DeleteTransactionIfUnused, TransactionStatus.SetError, World.nextFault, World.advance, hg]

theorem reap_cases (t : Bytes → Option Transaction) (hash : Bytes) :
    reap t hash = t ∨
    ∃ row, t hash = some row ∧ row.Used = 0 ∧ row.Verified = 0 ∧
      reap t hash = Function.update t hash none := by
  unfold reap
  cases ht : t hash with
  | none => exact Or.inl rfl
  | some row =>
    by_cases hu : row.unusedUnverified = true
    · have hu2 : row.Used = 0 ∧ row.Verified = 0 := by
        simpa [Transaction.unusedUnverified] using hu
      exact Or.inr ⟨row, rfl, hu2.1, hu2.2, by simp [hu]⟩
    · exact Or.inl (by simp [hu])

/-- C5, amended: if `CheckTransaction` fails with `e`, `TxParser` returns `e` itself and
leaves the world that `processBadTransaction` with the message of `e` produces; if
validation passes and the resolved owner is zero, it returns the error "undefined
keyID" and leaves the world that `processBadTransaction` with that message produces.
In both cases no ledger row is inserted or changed, and the ledger is as before
except that the row of the hash is removed when it was unused and unverified (the
delete-if-unused step of `DeleteQueueTx`). -/
theorem TxParser_validation_failure (env : Env) (hash binaryTx : Bytes) (myTx : Bool)
    (w : World) :
    (∀ e, (env.CheckTransaction binaryTx).2 = some e →
      TxParser env hash binaryTx myTx w
        = (some e, (processBadTransaction env hash e.Error w).2)) ∧
    (ResolvesTo env binaryTx 0 →
      TxParser env hash binaryTx myTx w
        = (some (errorsNew (goString "undefined keyID")),
            (processBadTransaction env hash (goString "undefined keyID") w).2)) ∧
    ((env.CheckTransaction binaryTx).2 ≠ none ∨ ResolvesTo env binaryTx 0 →
      (TxParser env hash binaryTx myTx w).2.db.transactions = w.db.transactions ∨
      ∃ row, w.db.transactions hash = some row ∧ row.Used = 0 ∧ row.Verified = 0 ∧
        (TxParser env hash binaryTx myTx w).2.db.transactions
          = Function.update w.db.transactions hash none) := by
  have hA : ∀ e, (env.CheckTransaction binaryTx).2 = some e →
      TxParser env hash binaryTx myTx w
        = (some e, (processBadTransaction env hash e.Error w).2) := by
    intro e he
    unfold TxParser
    simp [he]
  have hB : ResolvesTo env binaryTx 0 →
      TxParser env hash binaryTx myTx w
        = (some (errorsNew (goString "undefined keyID")),
            (processBadTransaction env hash (goString "undefined keyID") w).2) := by
    intro hres
    rw [TxParser_of_resolvesTo env hash binaryTx myTx w 0 hres, if_pos rfl]
  have hL : ∀ msg, (processBadTransaction env hash msg w).2.db.transactions = w.db.transactions ∨
      ∃ row, w.db.transactions hash = some row ∧ row.Used = 0 ∧ row.Verified = 0 ∧
        (processBadTransaction env hash msg w).2.db.transactions
          = Function.update w.db.transactions hash none := by
    intro msg
    rcases processBadTransaction_transactions env hash msg w with h | h
    · exact Or.inl h
    · rcases reap_cases w.db.transactions hash with h2 | ⟨row, r1, r2, r3, r4⟩
      · exact Or.inl (by rw [h, h2])
      · exact Or.inr ⟨row, r1, r2, r3, by rw [h, r4]⟩
  refine ⟨hA, hB, ?_⟩
  rintro (hne | hres)
  · obtain ⟨e, he⟩ := Option.ne_none_iff_exists'.mp hne
    rw [hA e he]
    exact hL _
  · rw [hB hres]
    exact hL _

/-- C5, amended, at the envelope that fails validation, queued for `hashA`. -/
theorem TxParser_validation_failure_witness :
    TxParser envA hashA txBad false worldLocal
      = (some ⟨goString "bad signature"⟩,
          (processBadTransaction envA hashA (goString "bad signature") worldLocal).2) :=
  (TxParser_validation_failure envA hashA txBad false worldLocal).1 ⟨goString "bad signature"⟩ rfl

/-- C5 fails: when the ledger holds an unused, unverified row for the hash, the
rejection of an envelope that fails validation removes that row, so the ledger is not
unchanged. -/
theorem rejection_removes_unused_ledger_row :
    (envA.CheckTransaction txBad).2 = some ⟨goString "bad signature"⟩ ∧
    NoFaults worldOrphan ∧
    worldOrphan.db.transactions hashA = some (rowPending hashA) ∧
    (TxParser envA hashA txBad false worldOrphan).1 = some ⟨goString "bad signature"⟩ ∧
    (TxParser envA hashA txBad false worldOrphan).2.db.transactions hashA = none := by
  decide

/-! ## The Batch Driver -/

theorem reap_apply_of_ne (t : Bytes → Option Transaction) {hash h : Bytes} (hne : h ≠ hash) :
    reap t hash h = t h := by
  unfold reap
  cases ht : t hash with
  | none => rfl
  | some row =>
    by_cases hu : row.unusedUnverified = true
    · simp [hu, Function.update_noteq hne]
    · simp [hu]

theorem processBadTransaction_sameOff (env : Env) (hash errText : Bytes) (w : World) :
    SameOff hash w.db (processBadTransaction env hash errText w).2.db := by
  intro h hne
  obtain ⟨db, faults⟩ := w
  rcases faults with _ | ⟨_ | e1, _ | ⟨_ | e2, _ | ⟨_ | e3, _ | ⟨_ | e4, rest⟩⟩⟩⟩ <;>
    by_cases hg : (QueueTx.filled (db.queue_tx hash)).FromGate = 0 <;>
    simp [processBadTransaction, QueueTx.GetByHash, DeleteQueueTx, QueueTx.DeleteTx,
      DeleteTransactionIfUnused, TransactionStatus.SetError, World.nextFault, World.advance, hg,
      Function.update_noteq hne, reap_apply_of_ne _ hne]

theorem store_sameOff (env : Env) (hash binaryTx : Bytes) (txType keyID : Int) (w : World) :
    SameOff hash w.db (TxParser.store env hash binaryTx txType keyID w).2.db := by
  intro h hne
  obtain ⟨db, faults⟩ := w
  rcases faults with _ | ⟨_ | e1, _ | ⟨_ | e2, _ | ⟨_ | e3, _ | ⟨_ | e4, _ | ⟨_ | e5, rest⟩⟩⟩⟩⟩ <;>
    simp [TxParser.store, Transaction.Get, DeleteTransactionByHash, Transaction.Create,
      DeleteQueueTx, QueueTx.DeleteTx, DeleteTransactionIfUnused, World.nextFault,
      World.advance, Function.update_noteq hne, reap_apply_of_ne _ hne]

theorem TxParser_world_cases (env : Env) (hash binaryTx : Bytes) (myTx : Bool) (w : World) :
    (TxParser env hash binaryTx myTx w).2 = w ∨
    (∃ msg, (TxParser env hash binaryTx myTx w).2 = (processBadTransaction env hash msg w).2) ∨
    (∃ t k, (TxParser env hash binaryTx myTx w).2
      = (TxParser.store env hash binaryTx t k w).2) := by
  unfold TxParser
  cases herr : (env.CheckTransaction binaryTx).2 with
  | some e => exact Or.inr (Or.inl ⟨e.Error, by simp [herr]⟩)
  | none =>
    cases hs : env.IsStruct (env.GetTxTypeAndUserID binaryTx).1 with
    | true =>
      by_cases hk : (env.GetTxTypeAndUserID binaryTx).2 = 0
      · exact Or.inr (Or.inl ⟨goString "undefined keyID", by simp [herr, hs, hk]⟩)
      · exact Or.inr (Or.inr ⟨(env.GetTxTypeAndUserID binaryTx).1,
          (env.GetTxTypeAndUserID binaryTx).2, by simp [herr, hs, hk]⟩)
    | false =>
      cases hh : (env.CheckTransaction binaryTx).1 with
      | none => exact Or.inl (by simp [herr, hs, hh])
      | some hdr =>
        by_cases hk : hdr.KeyID = 0
        · exact Or.inr (Or.inl ⟨goString "undefined keyID", by simp [herr, hs, hh, hk]⟩)
        · exact Or.inr (Or.inr ⟨(env.GetTxTypeAndUserID binaryTx).1, hdr.KeyID,
            by simp [herr, hs, hh, hk]⟩)

theorem TxParser_sameOff (env : Env) (hash binaryTx : Bytes) (myTx : Bool) (w : World) :
    SameOff hash w.db (TxParser env hash binaryTx myTx w).2.db := by
  rcases TxParser_world_cases env hash binaryTx myTx w with h | ⟨msg, h⟩ | ⟨t, k, h⟩
  · rw [h]
    intro _ _
    exact ⟨rfl, rfl, rfl⟩
  · rw [h]
    exact processBadTransaction_sameOff env hash msg w
  · rw [h]
    exact store_sameOff env hash binaryTx t k w

theorem eachTxParser_untouched (env : Env) (rows : List Transaction) (w : World) (h : Bytes)
    (hne : ∀ d ∈ rows, d.Hash ≠ h) :
    (eachTxParser env rows w).db.queue_tx h = w.db.queue_tx h ∧
    (eachTxParser env rows w).db.transactions h = w.db.transactions h ∧
    (eachTxParser env rows w).db.transactions_status h = w.db.transactions_status h := by
  induction rows generalizing w with
  | nil => exact ⟨rfl, rfl, rfl⟩
  | cons d rest ih =>
    have hd : h ≠ d.Hash := fun hh => hne d (List.mem_cons_self d rest) hh.symm
    obtain ⟨f1, f2, f3⟩ := TxParser_sameOff env d.Hash d.Data false w h hd
    obtain ⟨g1, g2, g3⟩ := ih (TxParser env d.Hash d.Data false w).2
      (fun x hx => hne x (List.mem_cons_of_mem d hx))
    show (eachTxParser env rest _).db.queue_tx h = _ ∧ _
    exact ⟨g1.trans f1, g2.trans f2, g3.trans f3⟩

theorem loop_of_eachSucceeds (env : Env) (pre rest : List Transaction) (w : World)
    (hpre : eachSucceeds env pre w = true) :
    AllTxParser.loop env (pre ++ rest) w = AllTxParser.loop env rest (eachTxParser env pre w) := by
  induction pre generalizing w with
  | nil => rfl
  | cons d pre ih =>
    simp only [eachSucceeds, Bool.and_eq_true, Option.isNone_iff_eq_none] at hpre
    obtain ⟨h1, h2⟩ := hpre
    have hstep : TxParser env d.Hash d.Data false w
        = (none, (TxParser env d.Hash d.Data false w).2) := by
      rw [← h1]
    show AllTxParser.loop env (d :: (pre ++ rest)) w = _
    rw [AllTxParser.loop, hstep]
    exact ih _ h2

theorem eachTxParser_append (env : Env) (pre rest : List Transaction) (w : World) :
    eachTxParser env (pre ++ rest) w = eachTxParser env rest (eachTxParser env pre w) := by
  induction pre generalizing w with
  | nil => rfl
  | cons d pre ih => exact ih _

/-- C10: `AllTxParser` calls `TxParser(data.Hash, data.Data, false)` on the fetched rows
in fetch order.  When the fetch succeeds: if the calls for the rows `pre` succeed
and the call for the next row `ek` fails with `e`, then `AllTxParser` returns the
error wrapping `e`, the world is the one that the individual calls for `pre` and
then `ek` produce, and at every hash other than those of `pre` and `ek` (so at each
later row with a fresh hash) the queue, the ledger and the statuses are as before
the batch; if every call succeeds, it returns no error and the world is the one the
individual calls produce. -/
theorem AllTxParser_abort_on_failure (env : Env) (fetched : List Transaction) (w : World)
    (hfetch : w.nextFault = none) :
    (∀ (pre : List Transaction) (ek : Transaction) (post : List Transaction) (e : GoError),
      fetched = pre ++ ek :: post →
      eachSucceeds env pre (w.advance w.db) = true →
      (TxParser env ek.Hash ek.Data false (eachTxParser env pre (w.advance w.db))).1 = some e →
      AllTxParser env fetched w
        = (some (env.ErrInfo e), eachTxParser env (pre ++ [ek]) (w.advance w.db)) ∧
      ∀ h, (∀ d ∈ pre ++ [ek], d.Hash ≠ h) →
        (AllTxParser env fetched w).2.db.queue_tx h = w.db.queue_tx h ∧
        (AllTxParser env fetched w).2.db.transactions h = w.db.transactions h ∧
        (AllTxParser env fetched w).2.db.transactions_status h = w.db.transactions_status h) ∧
    (eachSucceeds env fetched (w.advance w.db) = true →
      AllTxParser env fetched w = (none, eachTxParser env fetched (w.advance w.db))) := by
  have hall : AllTxParser env fetched w = AllTxParser.loop env fetched (w.advance w.db) := by
    unfold AllTxParser GetAllUnverifiedAndUnusedTransactions
    simp [hfetch]
  constructor
  · intro pre ek post e hsplit hpre hek
    have hres : AllTxParser env fetched w
        = (some (env.ErrInfo e), eachTxParser env (pre ++ [ek]) (w.advance w.db)) := by
      rw [hall, hsplit, loop_of_eachSucceeds env pre (ek :: post) _ hpre, eachTxParser_append]
      have hstep : TxParser env ek.Hash ek.Data false (eachTxParser env pre (w.advance w.db))
          = (some e, (TxParser env ek.Hash ek.Data false
              (eachTxParser env pre (w.advance w.db))).2) := by
        rw [← hek]
      rw [AllTxParser.loop, hstep]
      rfl
    refine ⟨hres, ?_⟩
    intro h hne
    rw [hres]
    exact eachTxParser_untouched env (pre ++ [ek]) (w.advance w.db) h hne
  · intro hsucc
    rw [hall]
    have := loop_of_eachSucceeds env fetched [] (w.advance w.db) hsucc
    rw [List.append_nil] at this
    rw [this]
    rfl

/-- C10 at three pending rows whose second meets a failing insert: the batch returns the
wrapped error, the first hash is admitted (verified row with counter 1, no queue
entry), and the third is untouched: still queued, its ledger row still unverified. -/
theorem AllTxParser_abort_on_failure_witness :
    (AllTxParser envA batch worldBatch).1
      = some (envA.ErrInfo (envA.ErrInfo ⟨goString "disk full"⟩)) ∧
    (AllTxParser envA batch worldBatch).2.db.queue_tx hashA = none ∧
    ((AllTxParser envA batch worldBatch).2.db.transactions hashA).map (fun r => (r.Verified, r.Counter))
      = some (1, 1) ∧
    (AllTxParser envA batch worldBatch).2.db.queue_tx hashC = worldBatch.db.queue_tx hashC ∧
    (AllTxParser envA batch worldBatch).2.db.transactions hashC
      = worldBatch.db.transactions hashC ∧
    (AllTxParser envA batch worldBatch).2.db.transactions_status hashC
      = worldBatch.db.transactions_status hashC ∧
    worldBatch.db.queue_tx hashC = some ⟨hashC, txValid, 0⟩ := by
  have h := (AllTxParser_abort_on_failure envA batch worldBatch (by decide)).1
    [rowPending hashA] (rowPending hashB) [rowPending hashC]
    (envA.ErrInfo ⟨goString "disk full"⟩) rfl (by decide) (by decide)
  have hC := h.2 hashC (by decide)
  refine ⟨by rw [h.1], by decide, by decide, hC.1, hC.2.1, hC.2.2, by decide⟩

end GoGenesis
